import Mathlib

/-!
# GoalWeaver core: shallow embedding and verification

This file embeds the core of the `goalweaver` repository in Lean 4 and proves
(or refutes) the specification claims about it.

Embedded components:
* `goalweaver/types.py` — `Priority`, `GoalStatus`, `Goal` (the fields the graph
  and planner use; the opaque `metadata` bag and the timestamps are omitted as
  no graph/planner logic reads them).
* `goalweaver/goal_graph.py` — `GoalGraph` over a `networkx.DiGraph`.  A
  `DiGraph` is modelled by its insertion-ordered node list, its per-node
  `goal` attribute (an association list keyed by node id; `networkx` allows a
  node to exist without the attribute, hence the separate list), and its
  insertion-ordered edge list.  `networkx.topological_sort` /
  `is_directed_acyclic_graph` are modelled by a fuelled Kahn peeling
  (`is_directed_acyclic_graph` in networkx is itself implemented by attempting
  a topological sort and catching the failure, which the `Option` result
  mirrors); the readiness passes are proved order-independent, so the exact
  order Kahn emits is immaterial.
* `goalweaver/planner.py` — `AdaptivePlanner.next_batch` (Python's stable
  `list.sort` is modelled by a stable insertion sort on the same key).
* `goalweaver/memory.py` — the in-memory namespaces of `SharedMemory`
  (`bump_metric` et al.) and the read-merge-write step of `_persist`
  (file I/O and JSON encoding are out of scope; the persisted document is
  modelled as an association list from top-level key to already-encoded value).

Python raising an exception is modelled by `Option`/explicit flags:
`GoalGraph.add_dependency` mutates first and asserts afterwards, so its
embedding returns the (possibly corrupted) post-state together with a
`raised` flag.
-/

namespace GoalWeaver

/-- Embeds `types.Priority`: ordered int enum LOW=1 … CRITICAL=4. -/
inductive Priority where
  | low
  | medium
  | high
  | critical
deriving DecidableEq, Repr

/-- Embeds `int(priority)` — the enum's integer value. -/
def Priority.toInt : Priority → Int
  | .low => 1
  | .medium => 2
  | .high => 3
  | .critical => 4

/-- Embeds `types.GoalStatus`. -/
inductive GoalStatus where
  | pending
  | ready
  | in_progress
  | blocked
  | done
  | failed
deriving DecidableEq, Repr

/-- Embeds `types.Goal` — the fields read by the graph and the planner. -/
structure Goal where
  id : String
  title : String
  description : String := ""
  ownerAgent : Option String := none
  priority : Priority := .medium
  status : GoalStatus := .pending
  dependencies : List String := []
deriving DecidableEq, Repr

/-- Association-list lookup: first binding wins, as in a Python dict keyed once. -/
def getV {α : Type} : List (String × α) → String → Option α
  | [], _ => none
  | (k', v) :: rest, k => if k' = k then some v else getV rest k

/-- Association-list store: Python dict assignment `d[k] = v` — replaces the
binding in place if present, appends otherwise (dicts preserve insertion order). -/
def updateAssoc {α : Type} : List (String × α) → String → α → List (String × α)
  | [], k, v => [(k, v)]
  | (k', v') :: rest, k, v =>
      if k' = k then (k, v) :: rest else (k', v') :: updateAssoc rest k v

/-- Embeds `goal_graph.GoalGraph`'s backing `networkx.DiGraph`:
nodes in insertion order, the per-node `goal` attribute, and edges
`(dependency, goal)` in insertion order. -/
structure GoalGraph where
  nodes : List String
  attrs : List (String × Goal)
  edges : List (String × String)
deriving DecidableEq, Repr

/-- Embeds `GoalGraph.__init__`: empty digraph. -/
def GoalGraph.empty : GoalGraph := ⟨[], [], []⟩

/-- Embeds `networkx.DiGraph.add_node(id)` without attributes: a no-op when the node
exists, otherwise appends it. -/
def GoalGraph.addNodeBare (g : GoalGraph) (n : String) : GoalGraph :=
  if n ∈ g.nodes then g else { g with nodes := g.nodes ++ [n] }

/-- Embeds `GoalGraph.add_goal(goal)` = `add_node(goal.id, goal=goal)`: inserts the
node if absent and sets/overwrites its `goal` attribute.  It never fails. -/
def GoalGraph.add_goal (g : GoalGraph) (goal : Goal) : GoalGraph :=
  { nodes := if goal.id ∈ g.nodes then g.nodes else g.nodes ++ [goal.id]
    attrs := updateAssoc g.attrs goal.id goal
    edges := g.edges }

/-- Embeds `self.g.predecessors(n)`: sources of the edges into `n`. -/
def predsOf (edges : List (String × String)) (n : String) : List String :=
  (edges.filter (fun e => e.2 = n)).map (fun e => e.1)

/-- One Kahn round body: does `n` still have an incoming edge from `remaining`? -/
def hasIncomingFrom (edges : List (String × String)) (remaining : List String)
    (n : String) : Bool :=
  edges.any (fun e => e.2 = n && remaining.contains e.1)

/-- Fuelled Kahn peeling implementing `networkx.topological_sort`: repeatedly
emit every remaining node with no incoming edge from the remaining set.
`none` models `NetworkXUnfeasible` (a cycle); the initial fuel
(`nodes.length`, see `GoalGraph.topological_sort`) never runs out first, as
every successful round removes at least one node. -/
def kahn (edges : List (String × String)) : Nat → List String → Option (List String)
  | _, [] => some []
  | 0, _ :: _ => none
  | fuel + 1, r :: rs =>
      if ((r :: rs).filter (fun n => !hasIncomingFrom edges (r :: rs) n)).isEmpty then none
      else
        match kahn edges fuel ((r :: rs).filter (fun n => hasIncomingFrom edges (r :: rs) n)) with
        | none => none
        | some rest =>
            some ((r :: rs).filter (fun n => !hasIncomingFrom edges (r :: rs) n) ++ rest)

/-- Embeds `networkx.topological_sort(self.g)`; `none` models the raised
`NetworkXUnfeasible` on a cyclic graph. -/
def GoalGraph.topological_sort (g : GoalGraph) : Option (List String) :=
  kahn g.edges g.nodes.length g.nodes

/-- Embeds `networkx.is_directed_acyclic_graph(self.g)` — implemented in networkx by
attempting a topological sort and returning `False` when it raises. -/
def GoalGraph.is_directed_acyclic_graph (g : GoalGraph) : Bool :=
  g.topological_sort.isSome

/-- Embeds `GoalGraph.add_dependency(goal_id, depends_on_id)`:
`add_edge(depends_on_id, goal_id)` (which silently adds absent endpoints as
attribute-less nodes), THEN `assert is_directed_acyclic_graph`.  The returned
graph is the post-state even when the assertion raises; `raised` records the
`AssertionError`. -/
def GoalGraph.add_dependency (g : GoalGraph) (goalId dependsOnId : String) :
    GoalGraph × Bool :=
  let g1 := (g.addNodeBare dependsOnId).addNodeBare goalId
  let g2 := { g1 with
    edges := if (dependsOnId, goalId) ∈ g1.edges then g1.edges
             else g1.edges ++ [(dependsOnId, goalId)] }
  (g2, ¬ g2.is_directed_acyclic_graph)

/-- Embeds `GoalGraph.set_status`: rebinds the node's goal with the new status.
`none` models the `KeyError` when the node or its `goal` attribute is absent. -/
def GoalGraph.set_status (g : GoalGraph) (goalId : String) (status : GoalStatus) :
    Option GoalGraph :=
  match getV g.attrs goalId with
  | none => none
  | some goal => some { g with attrs := updateAssoc g.attrs goalId { goal with status := status } }

/-- Embeds `GoalGraph.mark_in_progress`: guarded — a DONE/FAILED goal is left alone. -/
def GoalGraph.mark_in_progress (g : GoalGraph) (goalId : String) : Option GoalGraph :=
  match getV g.attrs goalId with
  | none => none
  | some goal =>
      if goal.status = .done ∨ goal.status = .failed then some g
      else g.set_status goalId .in_progress

/-- Embeds `GoalGraph.mark_done`: sets DONE or FAILED unconditionally (no terminality
guard in the source). -/
def GoalGraph.mark_done (g : GoalGraph) (goalId : String) (success : Bool) : Option GoalGraph :=
  g.set_status goalId (if success then .done else .failed)

/-- The status set both readiness passes skip:
`{IN_PROGRESS, DONE, FAILED}`. -/
def skipsReadiness : GoalStatus → Bool
  | .in_progress | .done | .failed => true
  | _ => false

/-- Embeds `all(self.g.nodes[p]["goal"].status == GoalStatus.DONE for p in preds)`:
Python's `all` over a generator short-circuits on the first non-DONE
predecessor, so a later predecessor's missing attribute (`KeyError`, modelled
by `none`) is never reached. -/
def allPredsDone (attrs : List (String × Goal)) : List String → Option Bool
  | [] => some true
  | p :: ps =>
      match getV attrs p with
      | none => none
      | some gp => if gp.status = .done then allPredsDone attrs ps else some false

/-- The loop body of `GoalGraph.recompute_readiness`, iterated over the
traversal order: skip IN_PROGRESS/DONE/FAILED, else READY iff all
predecessors DONE, else PENDING.  `none` models a `KeyError`. -/
def recomputeFold (edges : List (String × String)) :
    List (String × Goal) → List String → Option (List (String × Goal))
  | attrs, [] => some attrs
  | attrs, n :: rest =>
      match getV attrs n with
      | none => none
      | some gl =>
          if skipsReadiness gl.status then recomputeFold edges attrs rest
          else
            match allPredsDone attrs (predsOf edges n) with
            | none => none
            | some true => recomputeFold edges (updateAssoc attrs n { gl with status := .ready }) rest
            | some false => recomputeFold edges (updateAssoc attrs n { gl with status := .pending }) rest

/-- Embeds `GoalGraph.recompute_readiness`: the fold above over
`networkx.topological_sort(self.g)`. -/
def GoalGraph.recompute_readiness (g : GoalGraph) : Option GoalGraph :=
  match g.topological_sort with
  | none => none
  | some order => (recomputeFold g.edges g.attrs order).map (fun a => { g with attrs := a })

/-- The loop of `GoalGraph.ready_goals`: the same pass as
`recompute_readiness`, additionally collecting (in traversal order) every goal
it sets to READY. -/
def readyFold (edges : List (String × String)) :
    List (String × Goal) → List String → Option (List Goal × List (String × Goal))
  | attrs, [] => some ([], attrs)
  | attrs, n :: rest =>
      match getV attrs n with
      | none => none
      | some gl =>
          if skipsReadiness gl.status then readyFold edges attrs rest
          else
            match allPredsDone attrs (predsOf edges n) with
            | none => none
            | some true =>
                match readyFold edges (updateAssoc attrs n { gl with status := .ready }) rest with
                | none => none
                | some (lst, a) => some ({ gl with status := .ready } :: lst, a)
            | some false => readyFold edges (updateAssoc attrs n { gl with status := .pending }) rest

/-- Embeds `GoalGraph.ready_goals`: returns the READY goals and (the mutation being
in place in Python) the updated graph. -/
def GoalGraph.ready_goals (g : GoalGraph) : Option (List Goal × GoalGraph) :=
  match g.topological_sort with
  | none => none
  | some order =>
      (readyFold g.edges g.attrs order).map (fun la => (la.1, { g with attrs := la.2 }))

/-- The planner's sort key `(-int(g.priority), len(g.dependencies))`
(note: the `dependencies` FIELD of the goal, not the graph's edges). -/
def batchKey (gl : Goal) : Int × Nat := (-gl.priority.toInt, gl.dependencies.length)

/-- Non-strict lexicographic comparison of the planner keys — the total
preorder Python's tuple comparison induces on them. -/
def goalLe (a b : Goal) : Prop :=
  (batchKey a).1 < (batchKey b).1 ∨
    ((batchKey a).1 = (batchKey b).1 ∧ (batchKey a).2 ≤ (batchKey b).2)

instance : DecidableRel goalLe := fun a b => by unfold goalLe; infer_instance

instance : IsTotal Goal goalLe :=
  ⟨by intro a b; unfold goalLe; omega⟩

instance : IsTrans Goal goalLe :=
  ⟨by intro a b c; unfold goalLe; omega⟩

/-- Stable sort by `batchKey`, extensionally Python's stable
`ready.sort(key=lambda g: (-int(g.priority), len(g.dependencies)))`
(insertion sort places an element before the first sorted element its key is
`≤`, so equal keys keep their original relative order, as `list.sort` does). -/
def sortByKey (l : List Goal) : List Goal := List.insertionSort goalLe l

/-- Embeds `AdaptivePlanner.next_batch(k)`: `ready_goals`, stable sort by the key,
take `k`.  The planner mutates its graph through `ready_goals`, so the
post-state graph is returned alongside the batch. -/
def AdaptivePlanner.next_batch (g : GoalGraph) (k : Nat) : Option (List Goal × GoalGraph) :=
  (g.ready_goals).map (fun rg => ((sortByKey rg.1).take k, rg.2))

/-- Embeds `memory.SharedMemory._state`'s three owned namespaces.  `logs` items and
`artifacts` values are opaque (`V`); `metrics` values are `int`. -/
structure SharedMemory (V : Type) where
  logs : List V
  artifacts : List (String × V)
  metrics : List (String × Int)
deriving DecidableEq, Repr

/-- Embeds `SharedMemory.append_log`. -/
def SharedMemory.append_log {V : Type} (m : SharedMemory V) (item : V) : SharedMemory V :=
  { m with logs := m.logs ++ [item] }

/-- Embeds `SharedMemory.record_artifact`. -/
def SharedMemory.record_artifact {V : Type} (m : SharedMemory V) (name : String) (v : V) :
    SharedMemory V :=
  { m with artifacts := updateAssoc m.artifacts name v }

/-- Embeds `SharedMemory.bump_metric(name, inc=1)`:
`m[name] = int(m.get(name, 0)) + inc`.  `inc` is any `int`. -/
def SharedMemory.bump_metric {V : Type} (m : SharedMemory V) (name : String) (inc : Int) :
    SharedMemory V :=
  { m with metrics := updateAssoc m.metrics name ((getV m.metrics name).getD 0 + inc) }

/-- The value recorded under a metric name (`m.get(name, 0)`). -/
def SharedMemory.metricValue {V : Type} (m : SharedMemory V) (name : String) : Int :=
  (getV m.metrics name).getD 0

/-- The merge step of `SharedMemory._persist`: start from the parsed on-disk
document (an empty document when the file is missing or unreadable), then
overwrite exactly the keys `"logs"`, `"artifacts"`, `"metrics"` with the
serialized in-memory namespaces (`json.dump` itself is out of scope, so the
three encoded values are parameters).  The merged document is what the
atomic tmp-file-then-rename write puts on disk. -/
def persistMerge {V : Type} (disk : List (String × V)) (logsV artifactsV metricsV : V) :
    List (String × V) :=
  updateAssoc (updateAssoc (updateAssoc disk "logs" logsV) "artifacts" artifactsV)
    "metrics" metricsV

/-- The DONE-flag of a node: `none` when the node has no goal attribute,
otherwise whether its status is DONE.  The readiness passes read their
dependencies only through this flag, and never change it. -/
def doneFlag (attrs : List (String × Goal)) (n : String) : Option Bool :=
  (getV attrs n).map (fun gl => decide (gl.status = GoalStatus.done))

/-- Two attribute maps agreeing on every node's DONE-flag. -/
def doneEq (a b : List (String × Goal)) : Prop := ∀ n, doneFlag a n = doneFlag b n

/-- What one readiness pass leaves at node `n` whose pre-pass goal is `gl`,
all in terms of the pre-pass attribute map `attrs0`. -/
def targetGoal (edges : List (String × String)) (attrs0 : List (String × Goal))
    (n : String) (gl : Goal) : Goal :=
  if skipsReadiness gl.status then gl
  else { gl with status :=
    if allPredsDone attrs0 (predsOf edges n) = some true
    then GoalStatus.ready else GoalStatus.pending }

/-- What `ready_goals` appends for node `n`, in terms of the pre-pass map. -/
def readyEmit (edges : List (String × String)) (attrs0 : List (String × Goal))
    (n : String) : Option Goal :=
  (getV attrs0 n).bind (fun gl =>
    if skipsReadiness gl.status then none
    else if allPredsDone attrs0 (predsOf edges n) = some true
    then some { gl with status := GoalStatus.ready } else none)

/-- Well-formedness of a graph state, maintained by building graphs through
`add_goal`/`add_dependency` on known ids: no duplicate nodes, every node
carries a `goal` attribute, and edges connect nodes. -/
def GoalGraph.WF (g : GoalGraph) : Prop :=
  g.nodes.Nodup ∧ (∀ n ∈ g.nodes, (getV g.attrs n).isSome) ∧
    (∀ e ∈ g.edges, e.1 ∈ g.nodes ∧ e.2 ∈ g.nodes)

instance (g : GoalGraph) : Decidable g.WF := by
  unfold GoalGraph.WF
  infer_instance

/-! ## Concrete fixtures (from the spec's §8 scenarios and the repo's tests) -/

/-- Goal A of the two-goal scenario: no dependencies. -/
def goalA : Goal := { id := "a", title := "A" }

/-- Goal B of the two-goal scenario: depends on A. -/
def goalB : Goal := { id := "b", title := "B", dependencies := ["a"] }

/-- Fixture `add_goal(A); add_goal(B); add_dependency(B.id, A.id)` — nodes a, b and
edge a→b. -/
def graphAB : GoalGraph :=
  (((GoalGraph.empty.add_goal goalA).add_goal goalB).add_dependency "b" "a").1

/-- A goal already DONE, alone in a graph. -/
def goalDoneX : Goal := { id := "x", title := "X", status := .done }

/-- One-node graph whose goal is DONE. -/
def graphX : GoalGraph := GoalGraph.empty.add_goal goalDoneX

/-- First goal stored under id "dup". -/
def goalOld : Goal := { id := "dup", title := "old" }

/-- Second, different goal carrying the same id "dup". -/
def goalNew : Goal := { id := "dup", title := "new" }

/-- Graph holding `goalOld`. -/
def graphDup : GoalGraph := GoalGraph.empty.add_goal goalOld

/-- Five dependency-free goals, exactly one CRITICAL, the others LOW. -/
def fiveGoals : List Goal :=
  [{ id := "g0", title := "G0", priority := .low },
   { id := "g1", title := "G1", priority := .low },
   { id := "g2", title := "G2", priority := .critical },
   { id := "g3", title := "G3", priority := .low },
   { id := "g4", title := "G4", priority := .low }]

/-- The graph of the five goals above. -/
def graphFive : GoalGraph := fiveGoals.foldl GoalGraph.add_goal GoalGraph.empty

/-- A store whose metric "x" is 5. -/
def memX : SharedMemory Nat := { logs := [], artifacts := [], metrics := [("x", 5)] }

/-- The batch and post-state `next_batch(1)` produces on the five-goal
fixture (computed from the model itself, used as the concrete witness). -/
def batchFive : List Goal := ((AdaptivePlanner.next_batch graphFive 1).map Prod.fst).getD []

/-- The graph state after `next_batch(1)` on the five-goal fixture. -/
def graphFive' : GoalGraph :=
  ((AdaptivePlanner.next_batch graphFive 1).map Prod.snd).getD GoalGraph.empty

/-! ## Helper lemmas -/

@[simp] theorem getV_nil {α : Type} (k : String) : getV ([] : List (String × α)) k = none := rfl

theorem getV_updateAssoc_self {α : Type} (l : List (String × α)) (k : String) (v : α) :
    getV (updateAssoc l k v) k = some v := by
  induction l with
  | nil => simp [updateAssoc, getV]
  | cons p rest ih =>
      by_cases h : p.1 = k
      · simp [updateAssoc, getV, h]
      · simp [updateAssoc, getV, h, ih]

theorem getV_updateAssoc_ne {α : Type} (l : List (String × α)) (k k' : String) (v : α)
    (h : k ≠ k') : getV (updateAssoc l k v) k' = getV l k' := by
  induction l with
  | nil => simp [updateAssoc, getV, h]
  | cons p rest ih =>
      by_cases hp : p.1 = k
      · simp [updateAssoc, getV, hp, h]
      · simp only [updateAssoc, hp, if_neg hp, getV]
        by_cases hp' : p.1 = k'
        · simp [hp']
        · simp [hp', ih]

theorem isSome_getV_updateAssoc {α : Type} (l : List (String × α)) (k k' : String) (v : α)
    (h : (getV l k').isSome) : (getV (updateAssoc l k v) k').isSome := by
  by_cases hk : k = k'
  · subst hk; simp [getV_updateAssoc_self]
  · rwa [getV_updateAssoc_ne _ _ _ _ hk]

/-- A successful Kahn peeling emits a permutation of the remaining nodes. -/
theorem kahn_perm (edges : List (String × String)) :
    ∀ (fuel : Nat) (rem out : List String), kahn edges fuel rem = some out → out.Perm rem := by
  intro fuel
  induction fuel with
  | zero =>
      intro rem out h
      cases rem with
      | nil => simp only [kahn, Option.some.injEq] at h; subst h; exact List.Perm.refl _
      | cons r rs => simp [kahn] at h
  | succ fuel ih =>
      intro rem out h
      cases rem with
      | nil => simp only [kahn, Option.some.injEq] at h; subst h; exact List.Perm.refl _
      | cons r rs =>
          simp only [kahn] at h
          by_cases hs :
              (((r :: rs).filter (fun n => !hasIncomingFrom edges (r :: rs) n)).isEmpty : Bool)
          · rw [if_pos hs] at h; exact absurd h (by simp)
          · rw [if_neg hs] at h
            cases hk : kahn edges fuel
                ((r :: rs).filter (fun n => hasIncomingFrom edges (r :: rs) n)) with
            | none => rw [hk] at h; exact absurd h (by simp)
            | some rest =>
                rw [hk] at h
                have hrest := ih _ _ hk
                have hout : ((r :: rs).filter (fun n => !hasIncomingFrom edges (r :: rs) n)
                    ++ rest) = out := by simpa using h
                subst hout
                exact List.Perm.trans (List.Perm.append_left _ hrest)
                  (List.Perm.trans List.perm_append_comm (List.filter_append_perm _ _))

/-- A successful `topological_sort` emits a permutation of the node list. -/
theorem topological_sort_perm (g : GoalGraph) (order : List String)
    (h : g.topological_sort = some order) : order.Perm g.nodes :=
  kahn_perm g.edges g.nodes.length g.nodes order h

/-- Membership in the predecessor list is membership of the edge. -/
theorem mem_predsOf (edges : List (String × String)) (n p : String) :
    p ∈ predsOf edges n ↔ (p, n) ∈ edges := by
  simp only [predsOf, List.mem_map, List.mem_filter]
  constructor
  · rintro ⟨e, ⟨he, hn⟩, hp⟩
    have hn' : e.2 = n := of_decide_eq_true hn
    have : e = (p, n) := by cases e; simp_all
    rwa [this] at he
  · intro he
    exact ⟨(p, n), ⟨he, by simp⟩, rfl⟩

theorem doneEq_refl (a : List (String × Goal)) : doneEq a a := fun _ => rfl

theorem doneEq_isSome {a b : List (String × Goal)} (h : doneEq a b) (n : String) :
    (getV a n).isSome = (getV b n).isSome := by
  have := h n
  unfold doneFlag at this
  cases hga : getV a n <;> cases hgb : getV b n <;> simp_all

theorem allPredsDone_congr {a b : List (String × Goal)} (h : doneEq a b) :
    ∀ ps : List String, allPredsDone a ps = allPredsDone b ps := by
  intro ps
  induction ps with
  | nil => rfl
  | cons p ps ih =>
      have hf := h p
      unfold doneFlag at hf
      cases hga : getV a p <;> cases hgb : getV b p <;> rw [hga, hgb] at hf
      · simp [allPredsDone, hga, hgb]
      · simp at hf
      · simp at hf
      · rename_i gla glb
        have hd : (gla.status = GoalStatus.done) ↔ (glb.status = GoalStatus.done) := by
          simpa using hf
        by_cases hda : gla.status = GoalStatus.done
        · have hdb : glb.status = GoalStatus.done := hd.mp hda
          simp [allPredsDone, hga, hgb, hda, hdb, ih]
        · have hdb : ¬ glb.status = GoalStatus.done := fun hc => hda (hd.mpr hc)
          simp [allPredsDone, hga, hgb, hda, hdb]

theorem allPredsDone_isSome (attrs : List (String × Goal)) :
    ∀ ps : List String, (∀ p ∈ ps, (getV attrs p).isSome) →
      (allPredsDone attrs ps).isSome := by
  intro ps
  induction ps with
  | nil => intro _; simp [allPredsDone]
  | cons p ps ih =>
      intro hp
      obtain ⟨gp, hgp⟩ := Option.isSome_iff_exists.mp (hp p (by simp))
      by_cases hd : gp.status = GoalStatus.done
      · simpa [allPredsDone, hgp, hd] using ih (fun q hq => hp q (by simp [hq]))
      · simp [allPredsDone, hgp, hd]

/-- Under presence of all predecessors, `allPredsDone` is `some true` exactly
when every predecessor's stored goal has status DONE. -/
theorem allPredsDone_true_iff (attrs : List (String × Goal)) :
    ∀ ps : List String, (∀ p ∈ ps, (getV attrs p).isSome) →
      (allPredsDone attrs ps = some true ↔
        ∀ p ∈ ps, ∃ gp, getV attrs p = some gp ∧ gp.status = GoalStatus.done) := by
  intro ps
  induction ps with
  | nil => intro _; simp [allPredsDone]
  | cons p ps ih =>
      intro hp
      obtain ⟨gp, hgp⟩ := Option.isSome_iff_exists.mp (hp p (by simp))
      by_cases hd : gp.status = GoalStatus.done
      · rw [show allPredsDone attrs (p :: ps) = allPredsDone attrs ps by
            simp [allPredsDone, hgp, hd]]
        rw [ih (fun q hq => hp q (by simp [hq]))]
        constructor
        · intro h q hq
          rcases List.mem_cons.mp hq with hq | hq
          · exact ⟨gp, by rw [hq]; exact hgp, hd⟩
          · exact h q hq
        · intro h q hq
          exact h q (by simp [hq])
      · rw [show allPredsDone attrs (p :: ps) = some false by simp [allPredsDone, hgp, hd]]
        constructor
        · intro h; simp at h
        · intro h
          obtain ⟨gp', hgp', hd'⟩ := h p (by simp)
          rw [hgp] at hgp'
          have heq : gp = gp' := Option.some.inj hgp'
          subst heq
          exact absurd hd' hd

theorem not_skips_ne_done {s : GoalStatus} (h : skipsReadiness s = false) :
    s ≠ GoalStatus.done := by
  cases s <;> simp_all [skipsReadiness]

/-- Joint characterization of both readiness folds over any duplicate-free
traversal order: both succeed, they produce the same final attribute map, the
map is given pointwise by `targetGoal` over the pre-pass map, DONE-flags are
untouched, and the collected list is `readyEmit` over the order.  The
characterization is relative to the pre-pass map `attrs0`, which makes the
result independent of the traversal order. -/
theorem readyFold_char (edges : List (String × String)) (attrs0 : List (String × Goal)) :
    ∀ (order : List String) (attrs : List (String × Goal)),
    order.Nodup →
    (∀ n ∈ order, getV attrs n = getV attrs0 n) →
    (∀ n ∈ order, (getV attrs0 n).isSome) →
    (∀ n ∈ order, ∀ p ∈ predsOf edges n, (getV attrs0 p).isSome) →
    doneEq attrs attrs0 →
    ∃ lst attrsF,
      readyFold edges attrs order = some (lst, attrsF) ∧
      recomputeFold edges attrs order = some attrsF ∧
      doneEq attrsF attrs0 ∧
      (∀ m, m ∉ order → getV attrsF m = getV attrs m) ∧
      (∀ n ∈ order, getV attrsF n = (getV attrs0 n).map (targetGoal edges attrs0 n)) ∧
      lst = order.filterMap (readyEmit edges attrs0) := by
  intro order
  induction order with
  | nil =>
      intro attrs _ _ _ _ hdone
      exact ⟨[], attrs, rfl, rfl, hdone, fun m _ => rfl, fun n hn => absurd hn (by simp),
        by simp⟩
  | cons n rest ih =>
      intro attrs hnd hagree hsome hpred hdone
      have hnmem : n ∉ rest := (List.nodup_cons.mp hnd).1
      have hndrest : rest.Nodup := (List.nodup_cons.mp hnd).2
      obtain ⟨gl, hgl0⟩ := Option.isSome_iff_exists.mp (hsome n (by simp))
      have hgla : getV attrs n = some gl := (hagree n (by simp)).trans hgl0
      by_cases hskip : skipsReadiness gl.status
      · -- node skipped: the fold recurses on the unchanged map
        obtain ⟨lst, attrsF, hready, hrecom, hdoneF, hout, hchar, hlst⟩ :=
          ih attrs hndrest (fun m hm => hagree m (by simp [hm]))
            (fun m hm => hsome m (by simp [hm]))
            (fun m hm => hpred m (by simp [hm])) hdone
        refine ⟨lst, attrsF, ?_, ?_, hdoneF, ?_, ?_, ?_⟩
        · simpa [readyFold, hgla, hskip] using hready
        · simpa [recomputeFold, hgla, hskip] using hrecom
        · intro m hm
          exact hout m (fun hc => hm (by simp [hc]))
        · intro m hm
          rcases List.mem_cons.mp hm with hm | hm
          · subst hm
            rw [hout m hnmem, hgla, hgl0]
            simp [targetGoal, hskip]
          · exact hchar m hm
        · rw [hlst, List.filterMap_cons]
          have : readyEmit edges attrs0 n = none := by
            simp [readyEmit, hgl0, hskip]
          rw [this]
      · -- node recomputed: READY or PENDING depending on the predecessors
        have hpredn : ∀ p ∈ predsOf edges n, (getV attrs p).isSome := by
          intro p hp
          rw [doneEq_isSome hdone p]
          exact hpred n (by simp) p hp
        obtain ⟨b, hb⟩ := Option.isSome_iff_exists.mp (allPredsDone_isSome attrs _ hpredn)
        have hb0 : allPredsDone attrs0 (predsOf edges n) = some b := by
          rw [← allPredsDone_congr hdone]; exact hb
        have hglne : gl.status ≠ GoalStatus.done :=
          not_skips_ne_done (by simpa using hskip)
        -- the updated goal written at node n
        set gl' : Goal :=
          { gl with status := if b then GoalStatus.ready else GoalStatus.pending } with hgl'
        have hstatus' : gl'.status ≠ GoalStatus.done := by
          rw [hgl']; cases b <;> simp
        have hdone' : doneEq (updateAssoc attrs n gl') attrs0 := by
          intro m
          by_cases hmn : n = m
          · subst hmn
            unfold doneFlag
            rw [getV_updateAssoc_self, hgl0]
            simp [hglne, hstatus']
          · unfold doneFlag
            rw [getV_updateAssoc_ne _ _ _ _ hmn]
            exact hdone m
        obtain ⟨lst, attrsF, hready, hrecom, hdoneF, hout, hchar, hlst⟩ :=
          ih (updateAssoc attrs n gl') hndrest
            (fun m hm => by
              have hmn : n ≠ m := fun hc => hnmem (hc ▸ hm)
              rw [getV_updateAssoc_ne _ _ _ _ hmn]
              exact hagree m (by simp [hm]))
            (fun m hm => hsome m (by simp [hm]))
            (fun m hm => hpred m (by simp [hm])) hdone'
        have houtn : getV attrsF n = some gl' := by
          rw [hout n hnmem, getV_updateAssoc_self]
        have htarget : targetGoal edges attrs0 n gl = gl' := by
          rw [hgl']
          simp only [targetGoal, hb0]
          rw [if_neg (by simpa using hskip)]
          cases b <;> simp
        refine ⟨?_, attrsF, ?_, ?_, hdoneF, ?_, ?_, ?_⟩
        · exact if b then { gl with status := GoalStatus.ready } :: lst else lst
        · cases b with
          | true =>
              have hgr : gl' = { gl with status := GoalStatus.ready } := by rw [hgl']; simp
              rw [hgr] at hready
              simp only [readyFold, hgla, hskip, hb, if_true]
              simp [hready]
          | false =>
              have hgr : gl' = { gl with status := GoalStatus.pending } := by rw [hgl']; simp
              rw [hgr] at hready
              simp only [readyFold, hgla, hskip, hb]
              simp [hready]
        · cases b with
          | true =>
              have hgr : gl' = { gl with status := GoalStatus.ready } := by rw [hgl']; simp
              rw [hgr] at hrecom
              simp only [recomputeFold, hgla, hskip, hb]
              simp [hrecom]
          | false =>
              have hgr : gl' = { gl with status := GoalStatus.pending } := by rw [hgl']; simp
              rw [hgr] at hrecom
              simp only [recomputeFold, hgla, hskip, hb]
              simp [hrecom]
        · intro m hm
          have hmrest : m ∉ rest := fun hc => hm (by simp [hc])
          have hmn : n ≠ m := fun hc => hm (by simp [hc])
          rw [hout m hmrest, getV_updateAssoc_ne _ _ _ _ hmn]
        · intro m hm
          rcases List.mem_cons.mp hm with hm | hm
          · subst hm
            rw [houtn, hgl0]
            exact congrArg some htarget.symm
          · exact hchar m hm
        · rw [hlst, List.filterMap_cons]
          have hemit : readyEmit edges attrs0 n =
              if b then some { gl with status := GoalStatus.ready } else none := by
            simp only [readyEmit, hgl0, Option.some_bind]
            rw [if_neg (by simpa using hskip), hb0]
            cases b <;> simp
          rw [hemit]
          cases b <;> simp

theorem getV_mem {α : Type} : ∀ (l : List (String × α)) (k : String) (v : α),
    getV l k = some v → (k, v) ∈ l := by
  intro l
  induction l with
  | nil => intro k v h; simp [getV] at h
  | cons p rest ih =>
      intro k v h
      by_cases hp : p.1 = k
      · rw [getV, if_pos hp] at h
        have : p = (k, v) := by
          cases p; simp_all
        simp [this]
      · rw [getV, if_neg hp] at h
        exact List.mem_cons_of_mem _ (ih k v h)

/-- Graph-level characterization of one readiness pass on a well-formed graph
whose `topological_sort` succeeds: `ready_goals` and `recompute_readiness`
agree on the post-state, the post-state is `targetGoal` of the pre-state
pointwise, and the returned list is `readyEmit` over the traversal order. -/
theorem ready_goals_char (g : GoalGraph) (order : List String)
    (hwf : g.WF) (hord : g.topological_sort = some order) :
    ∃ lst attrsF,
      g.ready_goals = some (lst, { g with attrs := attrsF }) ∧
      g.recompute_readiness = some { g with attrs := attrsF } ∧
      doneEq attrsF g.attrs ∧
      (∀ m, m ∉ g.nodes → getV attrsF m = getV g.attrs m) ∧
      (∀ n ∈ g.nodes, getV attrsF n = (getV g.attrs n).map (targetGoal g.edges g.attrs n)) ∧
      lst = order.filterMap (readyEmit g.edges g.attrs) := by
  obtain ⟨hnd, hattr, hedge⟩ := hwf
  have hperm := topological_sort_perm g order hord
  have hordnd : order.Nodup := hperm.symm.nodup hnd
  have hmem : ∀ n, n ∈ order ↔ n ∈ g.nodes := fun n => hperm.mem_iff
  obtain ⟨lst, attrsF, hready, hrecom, hdoneF, hout, hchar, hlst⟩ :=
    readyFold_char g.edges g.attrs order g.attrs hordnd (fun n _ => rfl)
      (fun n hn => hattr n ((hmem n).mp hn))
      (fun n _ p hp =>
        hattr p ((hedge (p, n) ((mem_predsOf g.edges n p).mp hp)).1))
      (doneEq_refl g.attrs)
  refine ⟨lst, attrsF, ?_, ?_, hdoneF, ?_, ?_, hlst⟩
  · rw [GoalGraph.ready_goals, hord]; simp [hready]
  · rw [GoalGraph.recompute_readiness, hord]; simp [hrecom]
  · intro m hm
    exact hout m (fun hc => hm ((hmem m).mp hc))
  · intro n hn
    exact hchar n ((hmem n).mpr hn)

/-- Every goal `ready_goals` collects has had its status set to READY. -/
theorem readyFold_members_ready (edges : List (String × String)) :
    ∀ (order : List String) (attrs : List (String × Goal)) (lst : List Goal)
      (attrsF : List (String × Goal)),
      readyFold edges attrs order = some (lst, attrsF) →
      ∀ x ∈ lst, x.status = GoalStatus.ready := by
  intro order
  induction order with
  | nil =>
      intro attrs lst attrsF h x hx
      simp only [readyFold, Option.some.injEq, Prod.mk.injEq] at h
      rw [← h.1] at hx
      simp at hx
  | cons n rest ih =>
      intro attrs lst attrsF h x hx
      rw [readyFold] at h
      cases hg : getV attrs n with
      | none => rw [hg] at h; simp at h
      | some gl =>
          simp only [hg] at h
          by_cases hskip : skipsReadiness gl.status
          · rw [if_pos hskip] at h
            exact ih attrs lst attrsF h x hx
          · rw [if_neg hskip] at h
            cases hap : allPredsDone attrs (predsOf edges n) with
            | none => simp only [hap] at h; exact Option.noConfusion h
            | some b =>
                simp only [hap] at h
                cases b with
                | true =>
                    cases hrf : readyFold edges
                        (updateAssoc attrs n { gl with status := GoalStatus.ready }) rest with
                    | none => simp only [hrf] at h; exact Option.noConfusion h
                    | some la =>
                        obtain ⟨lst', attrsF'⟩ := la
                        simp only [hrf, Option.some.injEq, Prod.mk.injEq] at h
                        rw [← h.1] at hx
                        rcases List.mem_cons.mp hx with hx | hx
                        · rw [hx]
                        · exact ih _ lst' attrsF' hrf x hx
                | false =>
                    exact ih _ lst attrsF h x hx

/-- Everything `readyEmit` emits has status READY. -/
theorem readyEmit_status (edges : List (String × String)) (attrs0 : List (String × Goal))
    (n : String) (gl : Goal) (h : readyEmit edges attrs0 n = some gl) :
    gl.status = GoalStatus.ready := by
  rw [readyEmit] at h
  cases hg : getV attrs0 n with
  | none => rw [hg] at h; simp at h
  | some gl0 =>
      rw [hg] at h
      simp only [Option.some_bind] at h
      by_cases hskip : skipsReadiness gl0.status
      · rw [if_pos hskip] at h; simp at h
      · rw [if_neg hskip] at h
        by_cases hap : allPredsDone attrs0 (predsOf edges n) = some true
        · rw [if_pos hap] at h
          have : { gl0 with status := GoalStatus.ready } = gl := by simpa using h
          rw [← this]
        · rw [if_neg hap] at h; simp at h

theorem addNodeBare_edges (g : GoalGraph) (n : String) :
    (g.addNodeBare n).edges = g.edges := by
  unfold GoalGraph.addNodeBare; split <;> rfl

theorem addNodeBare_nodes_of_not_mem (g : GoalGraph) (n : String) (h : n ∉ g.nodes) :
    (g.addNodeBare n).nodes = g.nodes ++ [n] := by
  simp [GoalGraph.addNodeBare, h]

theorem addNodeBare_attrs (g : GoalGraph) (n : String) :
    (g.addNodeBare n).attrs = g.attrs := by
  unfold GoalGraph.addNodeBare; split <;> rfl

theorem allPredsDone_true_iff_status (attrs : List (String × Goal)) (ps : List String)
    (h : ∀ p ∈ ps, (getV attrs p).isSome) :
    (allPredsDone attrs ps = some true ↔
      ∀ p ∈ ps, (getV attrs p).map Goal.status = some GoalStatus.done) := by
  rw [allPredsDone_true_iff attrs ps h]
  constructor
  · intro h' p hp
    obtain ⟨gp, hgp, hd⟩ := h' p hp
    rw [hgp]
    simp [hd]
  · intro h' p hp
    have := h' p hp
    cases hgp : getV attrs p with
    | none => rw [hgp] at this; simp at this
    | some gp =>
        rw [hgp] at this
        exact ⟨gp, rfl, by simpa using this⟩

/-! ## Claim theorems -/

/-- C1 (evidence of the code bug): on the two-node graph with edge a→b, the
call `add_dependency("a", "b")` would create the cycle a→b→a.  The assertion
does raise, but the edge b→a has already been inserted and stays: the graph
after the failed call differs from the graph before it and is no longer
acyclic — contradicting both the claim and the code's own DAG invariant. -/
theorem add_dependency_cycle_mutates :
    (graphAB.add_dependency "a" "b").2 = true ∧
    graphAB.edges = [("a", "b")] ∧
    (graphAB.add_dependency "a" "b").1.edges = [("a", "b"), ("b", "a")] ∧
    (graphAB.add_dependency "a" "b").1.is_directed_acyclic_graph = false := by decide

/-- C2 counterexample: `mark_done` has no terminality guard — the DONE goal
"x" is overwritten to FAILED by a subsequent `mark_done("x", success=False)`,
so DONE is not terminal for all graph operations. -/
theorem mark_done_overwrites_done :
    (getV graphX.attrs "x").map Goal.status = some GoalStatus.done ∧
    (graphX.mark_done "x" false).map (fun g' => (getV g'.attrs "x").map Goal.status)
      = some (some GoalStatus.failed) := by decide

/-- C5 counterexample: `add_goal` never rejects a duplicate id — adding a
second, different goal with the already-present id "dup" succeeds and
replaces the stored goal. -/
theorem add_goal_duplicate_not_rejected :
    goalNew.id ∈ graphDup.nodes ∧
    (graphDup.add_goal goalNew).nodes = ["dup"] ∧
    getV (graphDup.add_goal goalNew).attrs "dup" = some goalNew ∧
    goalNew ≠ goalOld := by decide

/-- C5 amended: `add_goal` with an already-present id does not fail (the
operation is total); it keeps the node set and edges and silently replaces
the stored goal for that id, leaving other ids' goals unchanged. -/
theorem add_goal_duplicate_replaces (g : GoalGraph) (goal : Goal)
    (h : goal.id ∈ g.nodes) :
    (g.add_goal goal).nodes = g.nodes ∧
    (g.add_goal goal).edges = g.edges ∧
    getV (g.add_goal goal).attrs goal.id = some goal ∧
    (∀ m, m ≠ goal.id → getV (g.add_goal goal).attrs m = getV g.attrs m) := by
  refine ⟨by simp [GoalGraph.add_goal, h], rfl, getV_updateAssoc_self _ _ _, ?_⟩
  intro m hm
  exact getV_updateAssoc_ne _ _ _ _ (Ne.symm hm)

/-- C5 witness: the amended statement applied to the duplicate-id fixture. -/
theorem add_goal_duplicate_replaces_witness :
    goalNew.id ∈ graphDup.nodes ∧
    ((graphDup.add_goal goalNew).nodes = graphDup.nodes ∧
      (graphDup.add_goal goalNew).edges = graphDup.edges ∧
      getV (graphDup.add_goal goalNew).attrs goalNew.id = some goalNew ∧
      (∀ m, m ≠ goalNew.id →
        getV (graphDup.add_goal goalNew).attrs m = getV graphDup.attrs m)) :=
  ⟨by decide, add_goal_duplicate_replaces graphDup goalNew (by decide)⟩

/-- C6 counterexample: on the empty graph, `add_dependency("b", "a")` does not
fail with any unknown-goal error — it silently inserts both absent ids as
(attribute-less) nodes plus the edge, and the call succeeds. -/
theorem add_dependency_unknown_not_rejected :
    ("a" ∉ GoalGraph.empty.nodes) ∧ ("b" ∉ GoalGraph.empty.nodes) ∧
    (GoalGraph.empty.add_dependency "b" "a").2 = false ∧
    (GoalGraph.empty.add_dependency "b" "a").1.nodes = ["a", "b"] ∧
    (GoalGraph.empty.add_dependency "b" "a").1.edges = [("a", "b")] ∧
    (GoalGraph.empty.add_dependency "b" "a").1.attrs = [] := by decide

/-- C6 amended: `add_dependency` performs no membership check — with both ids
absent it appends them as nodes without goal attributes and appends the edge;
the only failure mode remains the post-insertion acyclicity assertion. -/
theorem add_dependency_absent_ids_insert (g : GoalGraph) (goalId depId : String)
    (h1 : goalId ∉ g.nodes) (h2 : depId ∉ g.nodes) (h3 : depId ≠ goalId)
    (hedge : ∀ e ∈ g.edges, e.1 ∈ g.nodes) :
    (g.add_dependency goalId depId).1.nodes = g.nodes ++ [depId, goalId] ∧
    (g.add_dependency goalId depId).1.edges = g.edges ++ [(depId, goalId)] ∧
    (g.add_dependency goalId depId).1.attrs = g.attrs ∧
    ((g.add_dependency goalId depId).2 = true ↔
      (g.add_dependency goalId depId).1.is_directed_acyclic_graph = false) := by
  have hn1 : (g.addNodeBare depId).nodes = g.nodes ++ [depId] :=
    addNodeBare_nodes_of_not_mem g depId h2
  have hm : goalId ∉ (g.addNodeBare depId).nodes := by
    rw [hn1]
    simp only [List.mem_append, List.mem_singleton]
    rintro (hc | hc)
    · exact h1 hc
    · exact h3 hc.symm
  have hn2 : ((g.addNodeBare depId).addNodeBare goalId).nodes = g.nodes ++ [depId, goalId] := by
    rw [addNodeBare_nodes_of_not_mem _ _ hm, hn1, List.append_assoc]
    rfl
  have he : ((g.addNodeBare depId).addNodeBare goalId).edges = g.edges := by
    rw [addNodeBare_edges, addNodeBare_edges]
  have hnotin : (depId, goalId) ∉ ((g.addNodeBare depId).addNodeBare goalId).edges := by
    rw [he]
    intro hc
    exact h2 ((hedge (depId, goalId) hc))
  refine ⟨?_, ?_, ?_, ?_⟩
  · simp only [GoalGraph.add_dependency]
    exact hn2
  · simp only [GoalGraph.add_dependency, if_neg hnotin]
    rw [he]
  · simp only [GoalGraph.add_dependency]
    rw [addNodeBare_attrs, addNodeBare_attrs]
  · simp only [GoalGraph.add_dependency]
    cases hac : GoalGraph.is_directed_acyclic_graph _ <;> simp [hac]

/-- C6 witness: the amended statement applied to the empty graph. -/
theorem add_dependency_absent_ids_insert_witness :
    ("b" ∉ GoalGraph.empty.nodes ∧ "a" ∉ GoalGraph.empty.nodes ∧ "a" ≠ "b" ∧
      (∀ e ∈ GoalGraph.empty.edges, e.1 ∈ GoalGraph.empty.nodes)) ∧
    ((GoalGraph.empty.add_dependency "b" "a").1.nodes = GoalGraph.empty.nodes ++ ["a", "b"] ∧
      (GoalGraph.empty.add_dependency "b" "a").1.edges
        = GoalGraph.empty.edges ++ [("a", "b")] ∧
      (GoalGraph.empty.add_dependency "b" "a").1.attrs = GoalGraph.empty.attrs ∧
      ((GoalGraph.empty.add_dependency "b" "a").2 = true ↔
        (GoalGraph.empty.add_dependency "b" "a").1.is_directed_acyclic_graph = false)) :=
  ⟨by decide, add_dependency_absent_ids_insert GoalGraph.empty "b" "a"
    (by decide) (by decide) (by decide) (by decide)⟩

/-- C8 counterexample: `bump_metric` accepts any integer delta — a negative
delta strictly decreases the recorded counter (from 5 to 2 here), so metric
values are not monotone over all operation sequences. -/
theorem bump_metric_negative_decreases :
    memX.metricValue "x" = 5 ∧
    (memX.bump_metric "x" (-3)).metricValue "x" = 2 := by decide

/-- C8 amended: with a nonnegative delta, `bump_metric` never decreases any
metric value, and `append_log`/`record_artifact` leave metrics untouched;
monotonicity fails only for negative deltas. -/
theorem bump_metric_nonneg_monotone {V : Type} (m : SharedMemory V)
    (name other : String) (inc : Int) (item : V) (aname : String) (v : V)
    (h : 0 ≤ inc) :
    m.metricValue other ≤ (m.bump_metric name inc).metricValue other ∧
    (m.append_log item).metricValue other = m.metricValue other ∧
    (m.record_artifact aname v).metricValue other = m.metricValue other := by
  refine ⟨?_, rfl, rfl⟩
  unfold SharedMemory.metricValue SharedMemory.bump_metric
  by_cases hn : name = other
  · subst hn
    rw [getV_updateAssoc_self]
    simp only [Option.getD_some]
    omega
  · rw [getV_updateAssoc_ne _ _ _ _ hn]

/-- C8 witness: the amended statement at a concrete store and delta. -/
theorem bump_metric_nonneg_monotone_witness :
    (0 : Int) ≤ 2 ∧
    (memX.metricValue "x" ≤ (memX.bump_metric "x" 2).metricValue "x" ∧
      (memX.append_log 7).metricValue "x" = memX.metricValue "x" ∧
      (memX.record_artifact "art" 9).metricValue "x" = memX.metricValue "x") :=
  ⟨by decide, bump_metric_nonneg_monotone memX "x" "x" 2 7 "art" 9 (by decide)⟩

/-- C9: the persisted document preserves every top-level key other than the
three owned namespaces "logs", "artifacts", "metrics" exactly as it was on
disk (e.g. the orchestrator's "goals" key). -/
theorem persistMerge_preserves_foreign {V : Type} (disk : List (String × V))
    (logsV artifactsV metricsV : V) (k : String)
    (h1 : k ≠ "logs") (h2 : k ≠ "artifacts") (h3 : k ≠ "metrics") :
    getV (persistMerge disk logsV artifactsV metricsV) k = getV disk k := by
  unfold persistMerge
  rw [getV_updateAssoc_ne _ _ _ _ (Ne.symm h3), getV_updateAssoc_ne _ _ _ _ (Ne.symm h2),
    getV_updateAssoc_ne _ _ _ _ (Ne.symm h1)]

/-- C9 witness: a disk document with a foreign "goals" key keeps it across a
persist. -/
theorem persistMerge_preserves_foreign_witness :
    (("goals" : String) ≠ "logs" ∧ ("goals" : String) ≠ "artifacts" ∧
      ("goals" : String) ≠ "metrics") ∧
    getV (persistMerge [("goals", 42), ("logs", 0)] 10 20 30) "goals"
      = getV [(("goals" : String), (42 : Nat)), ("logs", 0)] "goals" :=
  ⟨by decide, persistMerge_preserves_foreign [("goals", 42), ("logs", 0)] 10 20 30 "goals"
    (by decide) (by decide) (by decide)⟩

/-- C2 amended: DONE and FAILED are terminal for `mark_in_progress`,
`recompute_readiness` and `ready_goals` (which also never collects such a
goal); only `mark_done` itself can overwrite them. -/
theorem terminal_stable_except_mark_done (g : GoalGraph) (order : List String)
    (n : String) (gl : Goal) (hwf : g.WF) (hord : g.topological_sort = some order)
    (hgl : getV g.attrs n = some gl)
    (hterm : gl.status = GoalStatus.done ∨ gl.status = GoalStatus.failed) :
    g.mark_in_progress n = some g ∧
    (∃ g', g.recompute_readiness = some g' ∧ getV g'.attrs n = some gl) ∧
    (∃ lst g', g.ready_goals = some (lst, g') ∧ getV g'.attrs n = some gl ∧ gl ∉ lst) := by
  have hskip : skipsReadiness gl.status = true := by
    rcases hterm with h | h <;> simp [skipsReadiness, h]
  obtain ⟨lst, attrsF, hready, hrecom, _, hout, hchar, hlst⟩ := ready_goals_char g order hwf hord
  have hstable : getV attrsF n = some gl := by
    by_cases hn : n ∈ g.nodes
    · rw [hchar n hn, hgl]
      simp [targetGoal, hskip]
    · rw [hout n hn, hgl]
  refine ⟨?_, ⟨_, hrecom, hstable⟩, ⟨lst, _, hready, hstable, ?_⟩⟩
  · unfold GoalGraph.mark_in_progress
    simp only [hgl]
    rw [if_pos hterm]
  · intro hc
    rw [hlst] at hc
    obtain ⟨n', _, hemit⟩ := List.mem_filterMap.mp hc
    have hready' := readyEmit_status g.edges g.attrs n' gl hemit
    rcases hterm with h | h <;> rw [h] at hready' <;> simp at hready'

/-- C2 witness: the amended statement applied to the one-node DONE fixture. -/
theorem terminal_stable_except_mark_done_witness :
    (graphX.WF ∧ graphX.topological_sort = some ["x"] ∧
      getV graphX.attrs "x" = some goalDoneX ∧
      (goalDoneX.status = GoalStatus.done ∨ goalDoneX.status = GoalStatus.failed)) ∧
    (graphX.mark_in_progress "x" = some graphX ∧
      (∃ g', graphX.recompute_readiness = some g' ∧ getV g'.attrs "x" = some goalDoneX) ∧
      (∃ lst g', graphX.ready_goals = some (lst, g') ∧
        getV g'.attrs "x" = some goalDoneX ∧ goalDoneX ∉ lst)) :=
  ⟨⟨by decide, by decide, by decide, by decide⟩,
    terminal_stable_except_mark_done graphX ["x"] "x" goalDoneX
      (by decide) (by decide) (by decide) (by decide)⟩

/-- C3: on a well-formed graph with a successful topological sort, after
`recompute_readiness` every goal with a status outside
{IN_PROGRESS, DONE, FAILED} is READY iff every graph predecessor's status is
DONE (else PENDING), while goals inside that set keep their status; and the
concrete A/B fixture goes A:READY, B:PENDING on the first pass and B:READY
after `mark_done("a", True)` and a second pass. -/
theorem recompute_readiness_spec (g : GoalGraph) (order : List String)
    (hwf : g.WF) (hord : g.topological_sort = some order) :
    (∃ g', g.recompute_readiness = some g' ∧ g'.nodes = g.nodes ∧ g'.edges = g.edges ∧
      ∀ n ∈ g.nodes, ∀ gl, getV g.attrs n = some gl →
        (skipsReadiness gl.status = true → getV g'.attrs n = some gl) ∧
        (skipsReadiness gl.status = false →
          getV g'.attrs n = some { gl with status :=
            if (∀ p ∈ predsOf g.edges n,
                (getV g.attrs p).map Goal.status = some GoalStatus.done)
            then GoalStatus.ready else GoalStatus.pending })) ∧
    ((graphAB.recompute_readiness.map (fun g1 =>
        ((getV g1.attrs "a").map Goal.status, (getV g1.attrs "b").map Goal.status)))
      = some (some GoalStatus.ready, some GoalStatus.pending) ∧
      (((graphAB.recompute_readiness.bind (fun g1 => g1.mark_done "a" true)).bind
          GoalGraph.recompute_readiness).map (fun g3 => (getV g3.attrs "b").map Goal.status))
        = some (some GoalStatus.ready)) := by
  refine ⟨?_, by decide, by decide⟩
  obtain ⟨lst, attrsF, hready, hrecom, hdoneF, hout, hchar, hlst⟩ :=
    ready_goals_char g order hwf hord
  refine ⟨_, hrecom, rfl, rfl, ?_⟩
  intro n hn gl hgl
  have hc : getV attrsF n = some (targetGoal g.edges g.attrs n gl) := by
    rw [hchar n hn, hgl]; rfl
  constructor
  · intro hskip
    rw [show getV ({ g with attrs := attrsF } : GoalGraph).attrs n = getV attrsF n from rfl, hc]
    simp [targetGoal, hskip]
  · intro hskip
    rw [show getV ({ g with attrs := attrsF } : GoalGraph).attrs n = getV attrsF n from rfl, hc]
    have hpres : ∀ p ∈ predsOf g.edges n, (getV g.attrs p).isSome := fun p hp =>
      hwf.2.1 p ((hwf.2.2 (p, n) ((mem_predsOf g.edges n p).mp hp)).1)
    have hiff := allPredsDone_true_iff_status g.attrs (predsOf g.edges n) hpres
    unfold targetGoal
    rw [if_neg (by simp [hskip])]
    have hif := if_congr hiff (Eq.refl GoalStatus.ready) (Eq.refl GoalStatus.pending)
    rw [hif]

/-- C3 witness: the statement applied to the concrete A/B fixture. -/
theorem recompute_readiness_spec_witness :
    (graphAB.WF ∧ graphAB.topological_sort = some ["a", "b"]) ∧
    ((∃ g', graphAB.recompute_readiness = some g' ∧ g'.nodes = graphAB.nodes ∧
        g'.edges = graphAB.edges ∧
        ∀ n ∈ graphAB.nodes, ∀ gl, getV graphAB.attrs n = some gl →
          (skipsReadiness gl.status = true → getV g'.attrs n = some gl) ∧
          (skipsReadiness gl.status = false →
            getV g'.attrs n = some { gl with status :=
              if (∀ p ∈ predsOf graphAB.edges n,
                  (getV graphAB.attrs p).map Goal.status = some GoalStatus.done)
              then GoalStatus.ready else GoalStatus.pending })) ∧
      ((graphAB.recompute_readiness.map (fun g1 =>
          ((getV g1.attrs "a").map Goal.status, (getV g1.attrs "b").map Goal.status)))
        = some (some GoalStatus.ready, some GoalStatus.pending) ∧
        (((graphAB.recompute_readiness.bind (fun g1 => g1.mark_done "a" true)).bind
            GoalGraph.recompute_readiness).map (fun g3 => (getV g3.attrs "b").map Goal.status))
          = some (some GoalStatus.ready))) :=
  ⟨⟨by decide, by decide⟩, recompute_readiness_spec graphAB ["a", "b"] (by decide) (by decide)⟩

/-- C4: `recompute_readiness` is idempotent — a second pass with no
intervening mutation leaves every goal attribute exactly as the first pass
did. -/
theorem recompute_readiness_idempotent (g : GoalGraph) (order : List String)
    (hwf : g.WF) (hord : g.topological_sort = some order) :
    ∃ g', g.recompute_readiness = some g' ∧
      ∃ g'', g'.recompute_readiness = some g'' ∧
        ∀ n, getV g''.attrs n = getV g'.attrs n := by
  obtain ⟨hnd, hattr, hedge⟩ := hwf
  obtain ⟨lst1, a1, hready1, hrecom1, hdone1, hout1, hchar1, _⟩ :=
    ready_goals_char g order ⟨hnd, hattr, hedge⟩ hord
  have hwf1 : ({ g with attrs := a1 } : GoalGraph).WF := by
    refine ⟨hnd, ?_, hedge⟩
    intro n hn
    show (getV a1 n).isSome = true
    rw [hchar1 n hn]
    simpa using hattr n hn
  obtain ⟨lst2, a2, hready2, hrecom2, hdone2, hout2, hchar2, _⟩ :=
    ready_goals_char { g with attrs := a1 } order hwf1 hord
  refine ⟨{ g with attrs := a1 }, hrecom1, { g with attrs := a2 }, hrecom2, ?_⟩
  intro n
  show getV a2 n = getV a1 n
  by_cases hn : n ∈ g.nodes
  · have h2 : getV a2 n = (getV a1 n).map (targetGoal g.edges a1 n) := hchar2 n hn
    have h1 : getV a1 n = (getV g.attrs n).map (targetGoal g.edges g.attrs n) := hchar1 n hn
    obtain ⟨gl, hgl⟩ := Option.isSome_iff_exists.mp (hattr n hn)
    have ha1n : getV a1 n = some (targetGoal g.edges g.attrs n gl) := by rw [h1, hgl]; rfl
    rw [h2, ha1n]
    have hfix : targetGoal g.edges a1 n (targetGoal g.edges g.attrs n gl)
        = targetGoal g.edges g.attrs n gl := by
      by_cases hskip : skipsReadiness gl.status
      · have hgl1 : targetGoal g.edges g.attrs n gl = gl := by
          unfold targetGoal; rw [if_pos hskip]
        rw [hgl1]
        unfold targetGoal; rw [if_pos hskip]
      · have hcong : allPredsDone a1 (predsOf g.edges n)
            = allPredsDone g.attrs (predsOf g.edges n) := allPredsDone_congr hdone1 _
        have hinner : targetGoal g.edges g.attrs n gl
            = { gl with status :=
                if allPredsDone g.attrs (predsOf g.edges n) = some true
                then GoalStatus.ready else GoalStatus.pending } := by
          unfold targetGoal
          rw [if_neg hskip]
        rw [hinner]
        by_cases hc : allPredsDone g.attrs (predsOf g.edges n) = some true
        · rw [if_pos hc]
          unfold targetGoal
          rw [if_neg (by simp [skipsReadiness]), if_pos (by rw [hcong]; exact hc)]
        · rw [if_neg hc]
          unfold targetGoal
          rw [if_neg (by simp [skipsReadiness]), if_neg (by rw [hcong]; exact hc)]
    exact congrArg some hfix
  · exact hout2 n hn

/-- C4 witness: idempotence at the concrete A/B fixture. -/
theorem recompute_readiness_idempotent_witness :
    (graphAB.WF ∧ graphAB.topological_sort = some ["a", "b"]) ∧
    (∃ g', graphAB.recompute_readiness = some g' ∧
      ∃ g'', g'.recompute_readiness = some g'' ∧
        ∀ n, getV g''.attrs n = getV g'.attrs n) :=
  ⟨⟨by decide, by decide⟩,
    recompute_readiness_idempotent graphAB ["a", "b"] (by decide) (by decide)⟩

/-- The post-pass status at a node is READY exactly when the node was
recomputed (status outside the skip set) with every predecessor DONE. -/
theorem targetGoal_status_ready_iff (edges : List (String × String))
    (attrs0 : List (String × Goal)) (n : String) (gl : Goal) :
    ((targetGoal edges attrs0 n gl).status = GoalStatus.ready ↔
      (skipsReadiness gl.status = false ∧
        allPredsDone attrs0 (predsOf edges n) = some true)) := by
  unfold targetGoal
  by_cases hskip : skipsReadiness gl.status
  · rw [if_pos hskip]
    constructor
    · intro hr
      rw [hr] at hskip
      exact absurd hskip (by decide)
    · rintro ⟨hf, _⟩
      rw [hskip] at hf
      simp at hf
  · rw [if_neg hskip]
    rw [Bool.not_eq_true] at hskip
    by_cases hall : allPredsDone attrs0 (predsOf edges n) = some true
    · rw [if_pos hall]
      simp [hall, hskip]
    · rw [if_neg hall]
      simp [hall]

/-- C7: `next_batch(k)` returns at most `k` goals, each with status READY,
ordered by priority descending then dependency-count ascending; and over the
five dependency-free goals of which exactly one is CRITICAL, `next_batch(1)`
returns exactly that CRITICAL goal. -/
theorem next_batch_spec (g : GoalGraph) (k : Nat) (batch : List Goal) (g' : GoalGraph)
    (h : AdaptivePlanner.next_batch g k = some (batch, g')) :
    batch.length ≤ k ∧
    (∀ x ∈ batch, x.status = GoalStatus.ready) ∧
    batch.Pairwise (fun a b =>
      b.priority.toInt < a.priority.toInt ∨
        (a.priority.toInt = b.priority.toInt ∧
          a.dependencies.length ≤ b.dependencies.length)) ∧
    (AdaptivePlanner.next_batch graphFive 1).map
        (fun rg => rg.1.map (fun x => (x.id, x.priority)))
      = some [("g2", Priority.critical)] := by
  unfold AdaptivePlanner.next_batch at h
  cases hrg : g.ready_goals with
  | none => rw [hrg] at h; exact absurd h (by simp)
  | some rg =>
      obtain ⟨lst, g0⟩ := rg
      rw [hrg] at h
      have h' : ((sortByKey lst).take k, g0) = (batch, g') := by simpa using h
      have hbatch : (sortByKey lst).take k = batch := (Prod.mk.injEq _ _ _ _ ▸ h').1
      -- recover the readiness fold to know list members are READY
      have hmem_ready : ∀ x ∈ lst, x.status = GoalStatus.ready := by
        unfold GoalGraph.ready_goals at hrg
        cases hts : g.topological_sort with
        | none => simp only [hts] at hrg; exact Option.noConfusion hrg
        | some order =>
            simp only [hts] at hrg
            cases hrf : readyFold g.edges g.attrs order with
            | none => rw [hrf] at hrg; simp at hrg
            | some la =>
                obtain ⟨l0, a0⟩ := la
                rw [hrf] at hrg
                have hl0 : l0 = lst := by
                  have := congrArg (fun o => o.map Prod.fst) hrg
                  simpa using this
                rw [← hl0]
                exact readyFold_members_ready g.edges order g.attrs l0 a0 hrf
      refine ⟨?_, ?_, ?_, by decide⟩
      · rw [← hbatch]
        exact List.length_take_le _ _
      · intro x hx
        rw [← hbatch] at hx
        have hx' : x ∈ sortByKey lst := List.take_subset _ _ hx
        have hx'' : x ∈ lst := (List.perm_insertionSort goalLe lst).mem_iff.mp hx'
        exact hmem_ready x hx''
      · have hsorted : (sortByKey lst).Pairwise goalLe :=
          List.sorted_insertionSort goalLe lst
        have htake : ((sortByKey lst).take k).Pairwise goalLe :=
          hsorted.sublist (List.take_sublist _ _)
        rw [← hbatch]
        refine htake.imp ?_
        intro a b hab
        unfold goalLe batchKey at hab
        dsimp at hab
        omega

/-- C7 witness: `next_batch(1)` on the five-goal fixture. -/
theorem next_batch_spec_witness :
    AdaptivePlanner.next_batch graphFive 1 = some (batchFive, graphFive') ∧
    (batchFive.length ≤ 1 ∧
      (∀ x ∈ batchFive, x.status = GoalStatus.ready) ∧
      batchFive.Pairwise (fun a b =>
        b.priority.toInt < a.priority.toInt ∨
          (a.priority.toInt = b.priority.toInt ∧
            a.dependencies.length ≤ b.dependencies.length)) ∧
      (AdaptivePlanner.next_batch graphFive 1).map
          (fun rg => rg.1.map (fun x => (x.id, x.priority)))
        = some [("g2", Priority.critical)]) :=
  ⟨by decide, next_batch_spec graphFive 1 batchFive graphFive' (by decide)⟩

/-- C10: `next_batch` leaves the graph exactly as `recompute_readiness` would
from the same pre-state (it recomputes readiness as a side effect through
`ready_goals`), and the list `ready_goals` returns contains exactly the nodes
whose post-pass status is READY. -/
theorem next_batch_refines_recompute_readiness (g : GoalGraph) (order : List String) (k : Nat)
    (hwf : g.WF) (hid : ∀ p ∈ g.attrs, p.2.id = p.1)
    (hord : g.topological_sort = some order) :
    ∃ batch lst g',
      AdaptivePlanner.next_batch g k = some (batch, g') ∧
      g.ready_goals = some (lst, g') ∧
      g.recompute_readiness = some g' ∧
      batch = (sortByKey lst).take k ∧
      ∀ n ∈ g.nodes,
        ((getV g'.attrs n).map Goal.status = some GoalStatus.ready ↔ ∃ x ∈ lst, x.id = n) := by
  obtain ⟨lst, attrsF, hready, hrecom, hdoneF, hout, hchar, hlst⟩ :=
    ready_goals_char g order hwf hord
  have hperm := topological_sort_perm g order hord
  refine ⟨(sortByKey lst).take k, lst, { g with attrs := attrsF }, ?_, hready, hrecom, rfl, ?_⟩
  · unfold AdaptivePlanner.next_batch
    rw [hready]
    rfl
  · intro n hn
    obtain ⟨gl, hgl⟩ := Option.isSome_iff_exists.mp (hwf.2.1 n hn)
    have hc : getV attrsF n = some (targetGoal g.edges g.attrs n gl) := by
      rw [hchar n hn, hgl]; rfl
    have hgid : gl.id = n := hid (n, gl) (getV_mem g.attrs n gl hgl)
    constructor
    · intro hr
      have hr' : (targetGoal g.edges g.attrs n gl).status = GoalStatus.ready := by
        rw [show getV ({ g with attrs := attrsF } : GoalGraph).attrs n
            = getV attrsF n from rfl, hc] at hr
        simpa using hr
      obtain ⟨hskip, hall⟩ := (targetGoal_status_ready_iff g.edges g.attrs n gl).mp hr'
      refine ⟨{ gl with status := GoalStatus.ready }, ?_, by simpa using hgid⟩
      rw [hlst]
      refine List.mem_filterMap.mpr ⟨n, hperm.mem_iff.mpr hn, ?_⟩
      unfold readyEmit
      rw [hgl]
      simp only [Option.some_bind]
      rw [if_neg (by simp [hskip]), if_pos hall]
    · rintro ⟨x, hx, hxid⟩
      rw [hlst] at hx
      obtain ⟨nn, hnn, hemit⟩ := List.mem_filterMap.mp hx
      unfold readyEmit at hemit
      cases hgl0 : getV g.attrs nn with
      | none => rw [hgl0] at hemit; simp at hemit
      | some gl0 =>
          rw [hgl0] at hemit
          simp only [Option.some_bind] at hemit
          by_cases hskip : skipsReadiness gl0.status
          · rw [if_pos hskip] at hemit
            exact absurd hemit (by simp)
          · rw [if_neg hskip] at hemit
            by_cases hall : allPredsDone g.attrs (predsOf g.edges nn) = some true
            · rw [if_pos hall] at hemit
              have hx' : x = { gl0 with status := GoalStatus.ready } :=
                (Option.some.inj hemit).symm
              have hgid0 : gl0.id = nn := hid (nn, gl0) (getV_mem g.attrs nn gl0 hgl0)
              have heqn : nn = n := by
                rw [← hgid0, ← hxid, hx']
              subst heqn
              rw [hgl] at hgl0
              have heqg : gl = gl0 := Option.some.inj hgl0
              subst heqg
              rw [show getV ({ g with attrs := attrsF } : GoalGraph).attrs nn
                  = getV attrsF nn from rfl, hc]
              have hready' : (targetGoal g.edges g.attrs nn gl).status = GoalStatus.ready :=
                (targetGoal_status_ready_iff g.edges g.attrs nn gl).mpr
                  ⟨by simpa using hskip, hall⟩
              simp [hready']
            · rw [if_neg hall] at hemit
              exact absurd hemit (by simp)

/-- C10 witness: the refinement at the concrete A/B fixture. -/
theorem next_batch_refines_recompute_readiness_witness :
    (graphAB.WF ∧ (∀ p ∈ graphAB.attrs, p.2.id = p.1) ∧
      graphAB.topological_sort = some ["a", "b"]) ∧
    (∃ batch lst g',
      AdaptivePlanner.next_batch graphAB 3 = some (batch, g') ∧
      graphAB.ready_goals = some (lst, g') ∧
      graphAB.recompute_readiness = some g' ∧
      batch = (sortByKey lst).take 3 ∧
      ∀ n ∈ graphAB.nodes,
        ((getV g'.attrs n).map Goal.status = some GoalStatus.ready ↔ ∃ x ∈ lst, x.id = n)) :=
  ⟨⟨by decide, by decide, by decide⟩,
    next_batch_refines_recompute_readiness graphAB ["a", "b"] 3
      (by decide) (by decide) (by decide)⟩

end GoalWeaver
